import Mathlib

/-!
Shallow embedding of `src/main.py` (multi-llm-website-generator):
a fan-out/fan-in pipeline that plans a web page, generates sections
concurrently, assembles them into a skeleton document, and generates
images. Remote LLM backends, HTML parsing and serialization are external
collaborators; they are modelled at their interface boundary (the
document tree, the response shapes, an abstract serializer/decoder).
-/

namespace MultiLLM

/-- `PromptSchema` from `src/main.py` lines 21-28: one section prompt of a plan. -/
structure PromptSchema where
  section_name : String
  prompt : String
deriving DecidableEq

/-- `ImagePromptResponse` from `src/main.py` lines 43-50. -/
structure ImagePromptResponse where
  prompt : String
  filename : String
deriving DecidableEq

/-- The tuple returned by `generate_section` (`src/main.py` line 100):
`(section_name, html_code, css_code, js_code, image_prompts)`, i.e. the
parsed `WorkerResponse` (lines 52-62) tagged with its section name. -/
structure SectionResult where
  section_name : String
  html_code : String
  css_code : Option String
  js_code : Option String
  image_prompts : List ImagePromptResponse
deriving DecidableEq

/-- Model of the parsed document tree (`bs4.BeautifulSoup`, used by `main`
at lines 133, 147, 151-153): an element has a tag, an optional `id`
attribute and children; `replace_with(str)` turns a node into a text node. -/
inductive Node where
  | elem (tag : String) (idAttr : Option String) (children : List Node)
  | text (s : String)

/-- Number of nodes (pre-order) whose `id` attribute equals `name`:
what `soup.find(id=name)` at line 147 can address. Counted over a forest. -/
def countIdF (name : String) : List Node → Nat
  | [] => 0
  | Node.text _ :: rest => countIdF name rest
  | Node.elem _ i cs :: rest =>
      (if i = some name then 1 else 0) + countIdF name cs + countIdF name rest

/-- `soup.find(id=name).replace_with(repl)` (`src/main.py` line 147):
replace the first node in pre-order whose `id` equals `name`; `none` when
`find` returns `None` (in which case the Python code raises
`AttributeError`). -/
def replaceIdF (name : String) (repl : Node) : List Node → Option (List Node)
  | [] => none
  | Node.text s :: rest => (replaceIdF name repl rest).map (Node.text s :: ·)
  | Node.elem t i cs :: rest =>
      if i = some name then some (repl :: rest)
      else
        match replaceIdF name repl cs with
        | some cs2 => some (Node.elem t i cs2 :: rest)
        | none => (replaceIdF name repl rest).map (Node.elem t i cs :: ·)

/-- Does the optional `id` attribute belong to the list `names`? -/
def idMem (names : List String) : Option String → Bool
  | some a => names.contains a
  | none => false

/-- Does the forest contain any node whose `id` is in `names`? -/
def hasIdIn (names : List String) : List Node → Bool
  | [] => false
  | Node.text _ :: rest => hasIdIn names rest
  | Node.elem _ i cs :: rest => idMem names i || hasIdIn names cs || hasIdIn names rest

/-- Section nodes are not nested: no node whose `id` is in `names` has a
descendant whose `id` is in `names`. This is the shape the planner's
skeleton instructions produce (sibling sections addressed by `id`). -/
def sectionsFlat (names : List String) : List Node → Bool
  | [] => true
  | Node.text _ :: rest => sectionsFlat names rest
  | Node.elem _ i cs :: rest =>
      (if idMem names i then !hasIdIn names cs else sectionsFlat names cs)
        && sectionsFlat names rest

/-- The string `s` occurs as a text node at a position not inside any
element whose `id` is in `names`. -/
def textOutside (names : List String) (s : String) : List Node → Bool
  | [] => false
  | Node.text t :: rest => (t = s) || textOutside names s rest
  | Node.elem _ i cs :: rest =>
      (if idMem names i then false else textOutside names s cs)
        || textOutside names s rest

/-- Children of the first element (pre-order) whose tag is `"head"`:
what `soup.head` addresses at `src/main.py` lines 151-152. -/
def findHeadChildren : List Node → Option (List Node)
  | [] => none
  | Node.text _ :: rest => findHeadChildren rest
  | Node.elem t _i cs :: rest =>
      if t = "head" then some cs
      else
        match findHeadChildren cs with
        | some r => some r
        | none => findHeadChildren rest

/-- Rewrite the children of the first element (pre-order) whose tag is
`"head"` with `f`; `none` when there is no head element (in which case
`soup.head` is `None` and the Python code raises `AttributeError`). -/
def mapHead (f : List Node → List Node) : List Node → Option (List Node)
  | [] => none
  | Node.text s :: rest => (mapHead f rest).map (Node.text s :: ·)
  | Node.elem t i cs :: rest =>
      if t = "head" then some (Node.elem t i (f cs) :: rest)
      else
        match mapHead f cs with
        | some cs2 => some (Node.elem t i cs2 :: rest)
        | none => (mapHead f rest).map (Node.elem t i cs :: ·)

/-- Python `list.insert(n, a)` as used by bs4 `Tag.insert`: insert at
position `n`, clamping to the end when `n` exceeds the length. -/
def insertAt (n : Nat) (a : α) : List α → List α
  | l =>
    match n, l with
    | 0, l => a :: l
    | _ + 1, [] => [a]
    | m + 1, c :: cs => c :: insertAt m a cs

-- ------------------------------------------------------------------
-- Pipeline models (src/main.py lines 16-17, 65-100, 102-158)
-- ------------------------------------------------------------------

/-- `worker_clients` has 3 entries (`src/main.py` line 17: `range(3)`). -/
def numWorkerClients : Nat := 3

/-- `worker_clients[index % len(worker_clients)]` (`src/main.py` line 75):
index-based selection from the credential pool. -/
def chooseClient (clients : List α) (index : Nat) : Option α :=
  clients.get? (index % clients.length)

/-- `WorkerResponse` (`src/main.py` lines 52-62): the schema-validated
payload of one section-generation call. -/
structure WorkerResponse where
  image_prompts : List ImagePromptResponse
  html_code : String
  css_code : Option String
  js_code : Option String
deriving DecidableEq

/-- One dispatched section task: `generate_section(prompt, shared, theme,
section_name, i)` appended at `src/main.py` line 137; `workerIndex` is
the prompt's position `i` in the plan's ordered `prompts`. -/
structure SectionTask where
  workerIndex : Nat
  section_name : String
  prompt : String
deriving DecidableEq

/-- The loop at `src/main.py` lines 134-137: one task per plan prompt,
carrying the prompt's position as its worker index. -/
def sectionTasks (prompts : List PromptSchema) : List SectionTask :=
  prompts.enum.map fun p =>
    { workerIndex := p.1, section_name := p.2.section_name, prompt := p.2.prompt }

/-- `generate_section` (`src/main.py` lines 74-100): awaits the worker
backend (an external remote call, modelled by its outcome `response`) and
returns the tuple `(section_name, html, css, js, image_prompts)`; a failed
or non-conforming response raises, which propagates to the caller. -/
def generate_section (task : SectionTask) (response : Except String WorkerResponse) :
    Except String SectionResult :=
  response.map fun w =>
    { section_name := task.section_name, html_code := w.html_code
      css_code := w.css_code, js_code := w.js_code, image_prompts := w.image_prompts }

/-- Task completions in wall-clock order: `order` lists task indices in
the order they finish; each completion delivers that task's value. -/
def completionSeq (tasks : List α) (order : List Nat) : List (Nat × α) :=
  order.filterMap fun j => (tasks[j]?).map fun t => (j, t)

/-- `asyncio.gather(*tasks)` (`src/main.py` line 138): results are
delivered positionally — slot `i` of the output is task `i`'s value,
whatever the completion order was. -/
def gatherResults (tasks : List α) (order : List Nat) : List α :=
  (List.range tasks.length).filterMap fun i => (completionSeq tasks order).lookup i

/-- `await asyncio.gather(...)` when tasks may raise: the first failed
task's exception propagates out of the `await`; otherwise all results. -/
def gatherExcept : List (Except ε α) → Except ε (List α)
  | [] => Except.ok []
  | Except.error e :: _ => Except.error e
  | Except.ok a :: rest => (gatherExcept rest).map (a :: ·)

/-- Lines 134-138: dispatch one `generate_section` per prompt (index `i`
as worker index) and gather, with `respond i` the backend's outcome for
task `i` and `order` the completion order. -/
def gatherSections (prompts : List PromptSchema)
    (respond : Nat → Except String WorkerResponse) (order : List Nat) :
    Except String (List SectionResult) :=
  gatherExcept (gatherResults
    ((sectionTasks prompts).enum.map fun it => generate_section it.2 (respond it.1)) order)

/-- The replacement loop at `src/main.py` lines 143-147:
`skeleton_soup.find(id=section).replace_with(html_snippet)` for each
result in gathered order; `find` returning `None` raises
`AttributeError`. -/
def assembleSections : List Node → List SectionResult → Except String (List Node)
  | t, [] => Except.ok t
  | t, r :: rest =>
    match replaceIdF r.section_name (Node.text r.html_code) t with
    | some t2 => assembleSections t2 rest
    | none => Except.error ("AttributeError: no node with id " ++ r.section_name)

/-- `"\n".join([x for x in xs if x is not None])` (lines 149-150). -/
def aggregate (xs : List (Option String)) : String :=
  String.intercalate "\n" (xs.filterMap id)

/-- The string inserted at line 151. -/
def styleBlock (css : String) : Node :=
  Node.text ("<style>\n" ++ css ++ "\n</style>")

/-- The string inserted at line 152. -/
def scriptBlock (js : String) : Node :=
  Node.text ("<script>\n" ++ js ++ "\n</script>")

/-- Lines 151-152: `soup.head.insert(1, style)` then
`soup.head.insert(1, script)`, so the script string lands at position 1
and the style string at position 2 of the head's children. -/
def insertHeadBlocks (css js : String) (t : List Node) : Option (List Node) :=
  mapHead (fun cs => insertAt 1 (scriptBlock js) (insertAt 1 (styleBlock css) cs)) t

/-- Python `str.replace(pat, r)` for a four-character pattern
`'&' :: t3` replaced by the single character `r`: scan left to right; at
each position, an occurrence of the pattern is replaced and the scan
resumes after it, otherwise the character is copied. Both calls at
`src/main.py` line 154 instantiate this. -/
def unescapeBy (t3 : List Char) (r : Char) : List Char → List Char
  | [] => []
  | c :: cs =>
    if c = '&' ∧ cs.take 3 = t3 then r :: unescapeBy t3 r (cs.drop 3)
    else c :: unescapeBy t3 r cs
termination_by l => l.length
decreasing_by
  · simp; omega
  · simp

/-- `output.replace("&lt;", "<")` (`src/main.py` line 154). -/
def unescapeLt (s : List Char) : List Char :=
  unescapeBy ['l', 't', ';'] '<' s

/-- `.replace("&gt;", ">")` (`src/main.py` line 154). -/
def unescapeGt (s : List Char) : List Char :=
  unescapeBy ['g', 't', ';'] '>' s

/-- Line 154: `output.replace("&lt;", "<").replace("&gt;", ">")`. -/
def unescapeOutput (s : List Char) : List Char :=
  unescapeGt (unescapeLt s)

/-- Is there an occurrence of the four-character pattern `'&' :: t3`? -/
def hasAmpPat (t3 : List Char) : List Char → Bool
  | [] => false
  | c :: cs => (c = '&' ∧ cs.take 3 = t3 : Bool) || hasAmpPat t3 cs

-- ------------------------------------------------------------------
-- Image generation (src/main.py lines 65-72, 139, 144, 148, 157)
-- ------------------------------------------------------------------

/-- Outcome of `session.post(cf_ai_url, ...)` + `response.json()`
(`src/main.py` lines 66-67), at the interface boundary: a JSON body with
`success=true` and a base64 image, a body with `success=false`, or a
raised transport/decoding error. -/
inductive ImageApiResponse where
  | success (image : String)
  | failure
  | transportError (e : String)
deriving DecidableEq

/-- A file written to disk: `open(path, "wb").write(content)`. -/
structure FileWrite where
  path : String
  content : String
deriving DecidableEq

/-- What one `generate_image` call did: an optional printed warning and
an optional file write. -/
structure ImageCallOutcome where
  logged : Option String
  written : Option FileWrite
deriving DecidableEq

/-- `generate_image` (`src/main.py` lines 65-72). A `success=false` body
is handled in-function: print a warning, write nothing, return. A
`success=true` body writes the base64-decoded payload (decoding is the
external `base64.decodebytes`, modelled by `decode`) to
`f"static/{filename}"`. A transport error is NOT caught anywhere in the
function: the exception propagates to the awaiting gather. -/
def generate_image (decode : String → String) (prompt filename : String)
    (resp : ImageApiResponse) : Except String ImageCallOutcome :=
  match resp with
  | ImageApiResponse.transportError e => Except.error e
  | ImageApiResponse.failure =>
      Except.ok { logged := some ("Could not generate image for: " ++ prompt), written := none }
  | ImageApiResponse.success img =>
      Except.ok { logged := none
                  written := some { path := "static/" ++ filename, content := decode img } }

/-- Lines 139 and 144: image prompts of all sections collected in
gathered-result order (`collected_image_prompts.extend(...)` per result). -/
def collectImagePrompts (results : List SectionResult) : List ImagePromptResponse :=
  results.flatMap fun r => r.image_prompts

/-- The per-call outcomes of the image batch, `imgRespond i` being the
backend's behaviour on the `i`-th collected prompt. -/
def imageCalls (decode : String → String) (prompts : List ImagePromptResponse)
    (imgRespond : Nat → ImageApiResponse) : List (Except String ImageCallOutcome) :=
  prompts.enum.map fun ip => generate_image decode ip.2.prompt ip.2.filename (imgRespond ip.1)

/-- File writes that are guaranteed to have completed when the batch
`await` raises: under a propagated exception the scheduler cancels the
remaining tasks, so only calls that finished before the failing one (here:
earlier in sequence) are certainly on disk. -/
def completedWrites : List (Except String ImageCallOutcome) → List FileWrite
  | [] => []
  | Except.ok o :: rest => o.written.toList ++ completedWrites rest
  | Except.error _ :: _ => []

-- ------------------------------------------------------------------
-- File system model and path resolution (for lines 71, 155)
-- ------------------------------------------------------------------

/-- Applying a sequence of writes to a file system (path ↦ contents):
`open(path, "wb")` truncates, so a later write to the same path wins. -/
def applyWrites (ws : List FileWrite) (fs : String → Option String) : String → Option String :=
  ws.foldl (fun acc w p => if p = w.path then some w.content else acc p) fs

/-- Split a path into `/`-separated segments. -/
def splitSlash : List Char → List (List Char)
  | [] => [[]]
  | c :: rest =>
    if c = '/' then [] :: splitSlash rest
    else
      match splitSlash rest with
      | h :: t => (c :: h) :: t
      | [] => [[c]]

/-- POSIX-style resolution of the split path: `..` pops a segment, `.`
and empty segments vanish. -/
def resolveSegs (segs : List (List Char)) : List (List Char) :=
  segs.foldl
    (fun acc seg =>
      if seg = ('.' :: '.' :: []) then acc.dropLast
      else if seg = ('.' :: []) ∨ seg = [] then acc
      else acc ++ [seg]) []

/-- The path `generate_image` writes to (`src/main.py` line 71):
`f"static/{filename}"`, the filename used verbatim. -/
def writtenPathChars (filename : String) : List Char :=
  "static/".toList ++ filename.toList

/-- The resolved path names a file directly inside the `static` directory. -/
def insideStaticDir (p : List Char) : Bool :=
  match resolveSegs (splitSlash p) with
  | [d, f] => (d = "static".toList ∧ f ≠ [] : Bool)
  | _ => false

/-- A simple file name: nonempty, no `/`, not a dot-segment. -/
def isSimpleFilename (f : String) : Bool :=
  ('/' ∉ f.toList ∧ f.toList ≠ [] ∧
    f.toList ≠ ('.' :: '.' :: []) ∧ f.toList ≠ ('.' :: []) : Bool)

-- ------------------------------------------------------------------
-- The whole post-planning run (src/main.py lines 133-158)
-- ------------------------------------------------------------------

/-- What a run did: the file writes it performed, in order, and the
exception it terminated with, if any (`none` = clean exit). -/
structure RunResult where
  writes : List FileWrite
  error : Option String

/-- `main` after the planning call (`src/main.py` lines 133-158), at its
interface boundary: `skel` is the bs4 parse of `plan.skeleton` (line 133),
`serialize` the external `soup.prettify` (line 153), `decode` the external
`base64.decodebytes`, `respond i` / `imgRespond i` the remote backends'
outcomes for the `i`-th section / image call, and orders are wall-clock
completion orders of the two gathers. Steps: dispatch and gather sections
(134-138), replace each section node (143-147), aggregate css/js
(149-150), insert the two blocks into head (151-152), serialize and
unescape (153-154), write `index.html` (155-156), then await the image
batch (157): an uncaught image exception escapes after the document write. -/
def mainRun (serialize : List Node → String) (decode : String → String)
    (prompts : List PromptSchema) (skel : List Node)
    (respond : Nat → Except String WorkerResponse) (sectionOrder : List Nat)
    (imgRespond : Nat → ImageApiResponse) : RunResult :=
  match gatherSections prompts respond sectionOrder with
  | Except.error e => { writes := [], error := some e }
  | Except.ok results =>
    match assembleSections skel results with
    | Except.error e => { writes := [], error := some e }
    | Except.ok t =>
      match insertHeadBlocks (aggregate (results.map fun r => r.css_code))
          (aggregate (results.map fun r => r.js_code)) t with
      | none => { writes := [], error := some "AttributeError: soup has no head" }
      | some t2 =>
        match gatherExcept (imageCalls decode (collectImagePrompts results) imgRespond) with
        | Except.error e =>
            { writes :=
                { path := "index.html",
                  content := String.mk (unescapeOutput (serialize t2).toList) } ::
                completedWrites (imageCalls decode (collectImagePrompts results) imgRespond),
              error := some e }
        | Except.ok outs =>
            { writes :=
                { path := "index.html",
                  content := String.mk (unescapeOutput (serialize t2).toList) } ::
                outs.filterMap (fun o => o.written),
              error := none }

/-- The per-task outcomes of the section fan-out, in plan order. -/
def planOutcomes (prompts : List PromptSchema)
    (respond : Nat → Except String WorkerResponse) : List (Except String SectionResult) :=
  (sectionTasks prompts).enum.map fun it => generate_section it.2 (respond it.1)

/-- Concrete two-section scenario (hero/footer), used to instantiate the
general theorems: the plan prompts... -/
def scenarioPrompts : List PromptSchema :=
  [{ section_name := "hero", prompt := "h" }, { section_name := "footer", prompt := "f" }]

/-- ...the skeleton with one addressable node per section... -/
def scenarioSkeleton : List Node :=
  [Node.elem "body" none [Node.elem "div" (some "hero") [],
    Node.elem "div" (some "footer") []]]

/-- ...the worker backends' responses... -/
def scenarioRespond : Nat → Except String WorkerResponse := fun i =>
  if i = 0
  then Except.ok { image_prompts := [], html_code := "<section>Hi</section>",
                   css_code := some "color:red", js_code := none }
  else Except.ok { image_prompts := [], html_code := "<footer>Bye</footer>",
                   css_code := none, js_code := some "console.log(1)" }

/-- ...and the gathered section results in plan order. -/
def scenarioResults : List SectionResult :=
  [{ section_name := "hero", html_code := "<section>Hi</section>",
     css_code := some "color:red", js_code := none, image_prompts := [] },
   { section_name := "footer", html_code := "<footer>Bye</footer>",
     css_code := none, js_code := some "console.log(1)", image_prompts := [] }]

-- ------------------------------------------------------------------
-- Gather lemmas: positional delivery is independent of completion order
-- ------------------------------------------------------------------

theorem lookup_completionSeq {α : Type} (tasks : List α) (order : List Nat) (i : Nat)
    (t : α) (hget : tasks[i]? = some t) (hmem : i ∈ order) :
    (completionSeq tasks order).lookup i = some t := by
  induction order with
  | nil => cases hmem
  | cons j rest ih =>
    rcases List.mem_cons.mp hmem with hji | hmem'
    · subst hji
      simp [completionSeq, List.filterMap_cons, hget, List.lookup]
    · by_cases hij : i = j
      · subst hij
        simp [completionSeq, List.filterMap_cons, hget, List.lookup]
      · have hrec := ih hmem'
        cases hj : tasks[j]? with
        | none =>
          simpa [completionSeq, List.filterMap_cons, hj] using hrec
        | some tj =>
          have hbeq : (i == j) = false := by simp [hij]
          simp only [completionSeq, List.filterMap_cons, hj, Option.map_some'] at hrec ⊢
          simpa [List.lookup, hbeq] using hrec

theorem range_filterMap_get {α : Type} (tasks : List α) (f : Nat → Option α)
    (hf : ∀ i, i < tasks.length → f i = tasks[i]?) :
    (List.range tasks.length).filterMap f = tasks := by
  induction tasks generalizing f with
  | nil => simp
  | cons a as ih =>
    have h0 : f 0 = some a := by simpa using hf 0 (by simp)
    have hsucc : ∀ i, i < as.length → (f ∘ Nat.succ) i = as[i]? := by
      intro i hi
      simpa using hf (i + 1) (by simpa using Nat.succ_lt_succ hi)
    calc (List.range (a :: as).length).filterMap f
        = (0 :: (List.range as.length).map Nat.succ).filterMap f := by
          rw [List.length_cons, List.range_succ_eq_map]
      _ = a :: (List.range as.length).filterMap (f ∘ Nat.succ) := by
          rw [List.filterMap_cons, h0, List.filterMap_map]
      _ = a :: as := by rw [ih _ hsucc]

/-- `asyncio.gather` delivers every task's value at the task's own slot:
whenever the completion order covers all tasks, the delivered list is the
task list itself, whatever that order was. -/
theorem gatherResults_complete {α : Type} (tasks : List α) (order : List Nat)
    (horder : ∀ i, i < tasks.length → i ∈ order) :
    gatherResults tasks order = tasks := by
  unfold gatherResults
  apply range_filterMap_get
  intro i hi
  cases hget : tasks[i]? with
  | none =>
    exfalso
    have := List.getElem?_eq_none_iff.mp hget
    omega
  | some t => exact lookup_completionSeq tasks order i t hget (horder i hi)

theorem gatherExcept_map_ok {ε α : Type} (l : List α) :
    gatherExcept (ε := ε) (l.map Except.ok) = Except.ok l := by
  induction l with
  | nil => rfl
  | cons a as ih => simp [gatherExcept, ih, Except.map]

theorem gatherExcept_ok_elim {ε α : Type} (l : List (Except ε α)) (res : List α)
    (h : gatherExcept l = Except.ok res) : l = res.map Except.ok := by
  induction l generalizing res with
  | nil => cases h; rfl
  | cons x rest ih =>
    cases x with
    | error e => simp [gatherExcept] at h
    | ok a =>
      cases hr : gatherExcept rest with
      | error e => simp [gatherExcept, hr, Except.map] at h
      | ok v =>
        simp only [gatherExcept, hr, Except.map] at h
        cases h
        simp [ih v hr]

theorem gatherExcept_error_of_mem {ε α : Type} (l : List (Except ε α)) (e : ε)
    (hmem : Except.error e ∈ l) : ∃ e', gatherExcept l = Except.error e' := by
  induction l with
  | nil => cases hmem
  | cons x rest ih =>
    cases x with
    | error e0 => exact ⟨e0, rfl⟩
    | ok a =>
      rcases List.mem_cons.mp hmem with h | h
      · cases h
      · obtain ⟨e', he'⟩ := ih h
        exact ⟨e', by simp [gatherExcept, he', Except.map]⟩

/-- C2: credential selection (`worker_clients[index % len(worker_clients)]`,
`src/main.py` line 75) is deterministic modulo the pool size: for every
pool and prompt index `i`, the chosen worker client is the client at index
`i % pool_size`, and `select(i) = select(i + pool_size)`, a fact about the
index alone, independent of completion order. -/
theorem claim_C2_select_deterministic {α : Type} (clients : List α) (i : Nat) :
    chooseClient clients i = clients.get? (i % clients.length) ∧
    chooseClient clients (i + clients.length) = chooseClient clients i := by
  refine ⟨rfl, ?_⟩
  simp [chooseClient, Nat.add_mod_right]

-- ------------------------------------------------------------------
-- Unescape normalization (claim C8)
-- ------------------------------------------------------------------

theorem hasAmpPat_cons_elim (q : List Char) (c : Char) (cs : List Char)
    (h : hasAmpPat q (c :: cs) = false) :
    ¬(c = '&' ∧ cs.take 3 = q) ∧ hasAmpPat q cs = false := by
  revert h
  simp only [hasAmpPat, Bool.or_eq_false_iff, decide_eq_false_iff_not]
  exact id

theorem hasAmpPat_drop (q l : List Char) :
    ∀ n, hasAmpPat q l = false → hasAmpPat q (l.drop n) = false := by
  induction l with
  | nil => intro n h; simpa using h
  | cons c cs ih =>
    intro n h
    obtain ⟨-, htail⟩ := hasAmpPat_cons_elim q c cs h
    cases n with
    | zero => exact h
    | succ m => simpa using ih m htail

theorem unescapeBy_cons_pos (t3 : List Char) (r c : Char) (cs : List Char)
    (h : c = '&' ∧ cs.take 3 = t3) :
    unescapeBy t3 r (c :: cs) = r :: unescapeBy t3 r (cs.drop 3) := by
  simp only [unescapeBy, if_pos h]

theorem unescapeBy_cons_neg (t3 : List Char) (r c : Char) (cs : List Char)
    (h : ¬(c = '&' ∧ cs.take 3 = t3)) :
    unescapeBy t3 r (c :: cs) = c :: unescapeBy t3 r cs := by
  simp only [unescapeBy, if_neg h]

theorem unescapeBy_take_one (t3 : List Char) (r q3 : Char) (h3 : r ≠ q3) :
    ∀ cs : List Char, (unescapeBy t3 r cs).take 1 = [q3] → cs.take 1 = [q3] := by
  intro cs h
  cases cs with
  | nil => simp [unescapeBy] at h
  | cons a cs1 =>
    by_cases hc : a = '&' ∧ cs1.take 3 = t3
    · rw [unescapeBy_cons_pos t3 r a cs1 hc] at h
      simp at h
      exact absurd h h3
    · rw [unescapeBy_cons_neg t3 r a cs1 hc] at h
      simpa using h

theorem unescapeBy_take_two (t3 : List Char) (r q2 q3 : Char)
    (h2 : r ≠ q2) (h3 : r ≠ q3) :
    ∀ cs : List Char, (unescapeBy t3 r cs).take 2 = [q2, q3] → cs.take 2 = [q2, q3] := by
  intro cs h
  cases cs with
  | nil => simp [unescapeBy] at h
  | cons a cs1 =>
    by_cases hc : a = '&' ∧ cs1.take 3 = t3
    · rw [unescapeBy_cons_pos t3 r a cs1 hc] at h
      simp at h
      exact absurd h.1 h2
    · rw [unescapeBy_cons_neg t3 r a cs1 hc] at h
      simp only [List.take_succ_cons, List.cons.injEq] at h ⊢
      exact ⟨h.1, unescapeBy_take_one t3 r q3 h3 cs1 h.2⟩

theorem unescapeBy_take_three (t3 : List Char) (r q1 q2 q3 : Char)
    (h1 : r ≠ q1) (h2 : r ≠ q2) (h3 : r ≠ q3) :
    ∀ cs : List Char, (unescapeBy t3 r cs).take 3 = [q1, q2, q3] →
      cs.take 3 = [q1, q2, q3] := by
  intro cs h
  cases cs with
  | nil => simp [unescapeBy] at h
  | cons a cs1 =>
    by_cases hc : a = '&' ∧ cs1.take 3 = t3
    · rw [unescapeBy_cons_pos t3 r a cs1 hc] at h
      simp at h
      exact absurd h.1 h1
    · rw [unescapeBy_cons_neg t3 r a cs1 hc] at h
      simp only [List.take_succ_cons, List.cons.injEq] at h ⊢
      exact ⟨h.1, unescapeBy_take_two t3 r q2 q3 h2 h3 cs1 h.2⟩

theorem unescapeBy_kills (q1 q2 q3 r : Char)
    (h0 : r ≠ '&') (h1 : r ≠ q1) (h2 : r ≠ q2) (h3 : r ≠ q3) (s : List Char) :
    hasAmpPat [q1, q2, q3] (unescapeBy [q1, q2, q3] r s) = false := by
  refine unescapeBy.induct [q1, q2, q3] r
    (fun l => hasAmpPat [q1, q2, q3] (unescapeBy [q1, q2, q3] r l) = false) ?_ ?_ ?_ s
  · simp [unescapeBy, hasAmpPat]
  · intro c cs hc ih
    rw [unescapeBy_cons_pos _ r c cs hc]
    simp only [hasAmpPat, Bool.or_eq_false_iff, decide_eq_false_iff_not]
    exact ⟨fun hr => h0 hr.1, ih⟩
  · intro c cs hc ih
    rw [unescapeBy_cons_neg _ r c cs hc]
    simp only [hasAmpPat, Bool.or_eq_false_iff, decide_eq_false_iff_not]
    refine ⟨fun hbad => ?_, ih⟩
    exact hc ⟨hbad.1, unescapeBy_take_three _ r q1 q2 q3 h1 h2 h3 cs hbad.2⟩

theorem unescapeBy_keeps (t3 : List Char) (q1 q2 q3 r : Char)
    (h0 : r ≠ '&') (h1 : r ≠ q1) (h2 : r ≠ q2) (h3 : r ≠ q3) :
    ∀ s, hasAmpPat [q1, q2, q3] s = false →
      hasAmpPat [q1, q2, q3] (unescapeBy t3 r s) = false := by
  intro s
  refine unescapeBy.induct t3 r
    (fun l => hasAmpPat [q1, q2, q3] l = false →
      hasAmpPat [q1, q2, q3] (unescapeBy t3 r l) = false) ?_ ?_ ?_ s
  · intro h; simpa [unescapeBy] using h
  · intro c cs hc ih h
    obtain ⟨-, htail⟩ := hasAmpPat_cons_elim _ c cs h
    rw [unescapeBy_cons_pos _ r c cs hc]
    simp only [hasAmpPat, Bool.or_eq_false_iff, decide_eq_false_iff_not]
    exact ⟨fun hr => h0 hr.1, ih (hasAmpPat_drop _ cs 3 htail)⟩
  · intro c cs hc ih h
    obtain ⟨hhead, htail⟩ := hasAmpPat_cons_elim _ c cs h
    rw [unescapeBy_cons_neg _ r c cs hc]
    simp only [hasAmpPat, Bool.or_eq_false_iff, decide_eq_false_iff_not]
    refine ⟨fun hbad => ?_, ih htail⟩
    exact hhead ⟨hbad.1, unescapeBy_take_three t3 r q1 q2 q3 h1 h2 h3 cs hbad.2⟩

theorem unescapeBy_fixed (t3 : List Char) (r : Char) :
    ∀ s, hasAmpPat t3 s = false → unescapeBy t3 r s = s := by
  intro s
  induction s with
  | nil => intro h; simp [unescapeBy]
  | cons c cs ih =>
    intro h
    obtain ⟨hhead, htail⟩ := hasAmpPat_cons_elim _ c cs h
    rw [unescapeBy_cons_neg t3 r c cs hhead, ih htail]

/-- C8: the unescape normalization pass at `src/main.py` line 154
(`output.replace("&lt;", "<").replace("&gt;", ">")`) is idempotent: for
every string, applying the pass twice yields the same result as applying
it once. -/
theorem claim_C8_unescape_idempotent (s : List Char) :
    unescapeOutput (unescapeOutput s) = unescapeOutput s := by
  have hlt : hasAmpPat ['l', 't', ';'] (unescapeLt s) = false :=
    unescapeBy_kills 'l' 't' ';' '<' (by decide) (by decide) (by decide) (by decide) s
  have hlt2 : hasAmpPat ['l', 't', ';'] (unescapeGt (unescapeLt s)) = false :=
    unescapeBy_keeps ['g', 't', ';'] 'l' 't' ';' '>'
      (by decide) (by decide) (by decide) (by decide) _ hlt
  have hgt : hasAmpPat ['g', 't', ';'] (unescapeGt (unescapeLt s)) = false :=
    unescapeBy_kills 'g' 't' ';' '>' (by decide) (by decide) (by decide) (by decide) _
  show unescapeGt (unescapeLt (unescapeGt (unescapeLt s))) = unescapeGt (unescapeLt s)
  rw [show unescapeLt (unescapeGt (unescapeLt s)) = unescapeGt (unescapeLt s) from
    unescapeBy_fixed _ '<' _ hlt2]
  exact unescapeBy_fixed _ '>' _ hgt

-- ------------------------------------------------------------------
-- Image file paths (claim C9)
-- ------------------------------------------------------------------

theorem splitSlash_static_decomp (l : List Char) :
    splitSlash ("static/".toList ++ l) = "static".toList :: splitSlash l := by
  have h : "static/".toList = ['s', 't', 'a', 't', 'i', 'c', '/'] := rfl
  rw [h]
  simp [splitSlash]

theorem splitSlash_no_slash (l : List Char) (h : '/' ∉ l) : splitSlash l = [l] := by
  induction l with
  | nil => rfl
  | cons c cs ih =>
    have hc : c ≠ '/' := fun hh => h (hh ▸ List.mem_cons_self c cs)
    have hcs : '/' ∉ cs := fun hh => h (List.mem_cons_of_mem c hh)
    simp only [splitSlash, if_neg hc, ih hcs]

/-- C9 counterexample: `generate_image` uses the filename verbatim in
`f"static/{filename}"` with no validation, so the `ImagePrompt` filename
`"../secret.png"` produces a write whose resolved path lies outside the
static directory, refuting the claim that the file written is always
directly inside it. -/
theorem claim_C9_counterexample :
    generate_image (fun s => s) "p" "../secret.png" (ImageApiResponse.success "IMG") =
      Except.ok { logged := none,
                  written := some { path := "static/" ++ "../secret.png",
                                    content := "IMG" } } ∧
    insideStaticDir (writtenPathChars "../secret.png") = false := by
  exact ⟨rfl, by decide⟩

/-- C9 amended: the filename is used verbatim (the written path is exactly
`static/<filename>`, with no validation performed); only when the filename
is a simple file name — nonempty, no `/`, not a dot segment — is the
written file guaranteed to resolve directly inside the static directory. -/
theorem claim_C9_amended_simple_filename (decode : String → String)
    (prompt filename img : String) (hsimple : isSimpleFilename filename = true) :
    generate_image decode prompt filename (ImageApiResponse.success img) =
      Except.ok { logged := none,
                  written := some { path := "static/" ++ filename,
                                    content := decode img } } ∧
    insideStaticDir (writtenPathChars filename) = true := by
  refine ⟨rfl, ?_⟩
  obtain ⟨hslash, hne, hdd, hd⟩ := of_decide_eq_true hsimple
  unfold writtenPathChars insideStaticDir
  rw [splitSlash_static_decomp, splitSlash_no_slash _ hslash]
  simp only [String.toList] at hne hdd hd
  simp [resolveSegs, hne, hdd, hd]

theorem claim_C9_amended_witness :
    isSimpleFilename "logo.png" = true ∧
    (generate_image (fun s => s) "p" "logo.png" (ImageApiResponse.success "IMG") =
      Except.ok { logged := none,
                  written := some { path := "static/" ++ "logo.png",
                                    content := "IMG" } } ∧
     insideStaticDir (writtenPathChars "logo.png") = true) :=
  ⟨by decide,
    claim_C9_amended_simple_filename (fun s => s) "p" "logo.png" "IMG" (by decide)⟩

-- ------------------------------------------------------------------
-- Image writes and collisions (claim C6)
-- ------------------------------------------------------------------

theorem applyWrites_untouched (ws : List FileWrite) :
    ∀ (fs : String → Option String) (q : String),
      (∀ w2 ∈ ws, w2.path ≠ q) → applyWrites ws fs q = fs q := by
  induction ws with
  | nil => intro fs q _; rfl
  | cons w ws ih =>
    intro fs q hq
    have hw : w.path ≠ q := hq w (List.mem_cons_self w ws)
    have hrest : ∀ w2 ∈ ws, w2.path ≠ q := fun w2 hm => hq w2 (List.mem_cons_of_mem w hm)
    simp only [applyWrites, List.foldl_cons] at ih ⊢
    rw [ih _ q hrest]
    have hnq : ¬ q = w.path := fun hh => hw hh.symm
    simp [hnq]

/-- C6: a `success=true` image response writes the base64-decoded payload
to the static directory under the request's filename
(`open(f"static/{filename}", "wb")`, lines 71-72), and since `"wb"`
truncates, a later write to the same path overwrites an earlier one: the
last write wins on filename collisions. -/
theorem claim_C6_success_write_last_wins :
    (∀ (decode : String → String) (prompt filename img : String),
      generate_image decode prompt filename (ImageApiResponse.success img) =
        Except.ok { logged := none,
                    written := some { path := "static/" ++ filename,
                                      content := decode img } }) ∧
    (∀ (fs : String → Option String) (ws1 ws2 : List FileWrite) (w : FileWrite),
      (∀ w2 ∈ ws2, w2.path ≠ w.path) →
      applyWrites (ws1 ++ w :: ws2) fs w.path = some w.content) := by
  refine ⟨fun _ _ _ _ => rfl, fun fs ws1 ws2 w hws2 => ?_⟩
  have happ : applyWrites (ws1 ++ w :: ws2) fs =
      applyWrites (w :: ws2) (applyWrites ws1 fs) := by
    unfold applyWrites
    rw [List.foldl_append]
  have hcons : applyWrites (w :: ws2) (applyWrites ws1 fs) =
      applyWrites ws2
        (fun p => if p = w.path then some w.content else applyWrites ws1 fs p) := rfl
  rw [happ, hcons, applyWrites_untouched ws2 _ w.path hws2]
  simp

-- ------------------------------------------------------------------
-- Section fan-out basics (claims C1, C3, C4)
-- ------------------------------------------------------------------

theorem planOutcomes_length (prompts : List PromptSchema)
    (respond : Nat → Except String WorkerResponse) :
    (planOutcomes prompts respond).length = prompts.length := by
  simp [planOutcomes, sectionTasks]

theorem gatherSections_eq (prompts : List PromptSchema)
    (respond : Nat → Except String WorkerResponse) (order : List Nat) :
    gatherSections prompts respond order =
      gatherExcept (gatherResults (planOutcomes prompts respond) order) := rfl

theorem sectionTasks_getElem? (prompts : List PromptSchema) (i : Nat) (p : PromptSchema)
    (hp : prompts[i]? = some p) :
    (sectionTasks prompts)[i]? =
      some { workerIndex := i, section_name := p.section_name, prompt := p.prompt } := by
  simp [sectionTasks, hp]

theorem planOutcomes_getElem? (prompts : List PromptSchema)
    (respond : Nat → Except String WorkerResponse) (i : Nat) (p : PromptSchema)
    (hp : prompts[i]? = some p) :
    (planOutcomes prompts respond)[i]? =
      some (generate_section
        { workerIndex := i, section_name := p.section_name, prompt := p.prompt }
        (respond i)) := by
  simp [planOutcomes, sectionTasks, hp]

/-- C4: if any one section call fails, the exception propagates through
`asyncio.gather` (`src/main.py` line 138, no `return_exceptions`), the
run aborts before the assembly loop, no file at all is written, and no
sibling section result is used. -/
theorem claim_C4_section_failure_aborts
    (serialize : List Node → String) (decode : String → String)
    (prompts : List PromptSchema) (skel : List Node)
    (respond : Nat → Except String WorkerResponse) (order : List Nat)
    (imgRespond : Nat → ImageApiResponse)
    (horder : ∀ j, j < prompts.length → j ∈ order)
    (i : Nat) (e : String) (hi : i < prompts.length)
    (hfail : respond i = Except.error e) :
    (mainRun serialize decode prompts skel respond order imgRespond).writes = [] ∧
    (mainRun serialize decode prompts skel respond order imgRespond).error.isSome = true := by
  obtain ⟨p, hp⟩ : ∃ p, prompts[i]? = some p :=
    ⟨prompts[i], List.getElem?_eq_getElem hi⟩
  have hpo : (planOutcomes prompts respond)[i]? = some (Except.error e) := by
    rw [planOutcomes_getElem? prompts respond i p hp, hfail]
    rfl
  have hmem : (Except.error e : Except String SectionResult) ∈ planOutcomes prompts respond :=
    List.mem_iff_getElem?.mpr ⟨i, hpo⟩
  have hgr : gatherResults (planOutcomes prompts respond) order = planOutcomes prompts respond := by
    apply gatherResults_complete
    intro j hj
    exact horder j (by rwa [planOutcomes_length] at hj)
  obtain ⟨e', he'⟩ := gatherExcept_error_of_mem _ e hmem
  have hgs : gatherSections prompts respond order = Except.error e' := by
    rw [gatherSections_eq, hgr, he']
  unfold mainRun
  rw [hgs]
  exact ⟨rfl, rfl⟩

theorem claim_C4_witness :
    (mainRun (fun _ => "") (fun s => s) [{ section_name := "hero", prompt := "p" }] []
        (fun _ => Except.error "boom") [0] (fun _ => ImageApiResponse.failure)).writes = [] ∧
    (mainRun (fun _ => "") (fun s => s) [{ section_name := "hero", prompt := "p" }] []
        (fun _ => Except.error "boom") [0]
        (fun _ => ImageApiResponse.failure)).error.isSome = true :=
  claim_C4_section_failure_aborts (fun _ => "") (fun s => s)
    [{ section_name := "hero", prompt := "p" }] [] (fun _ => Except.error "boom") [0]
    (fun _ => ImageApiResponse.failure)
    (by intro j hj; simp only [List.length_cons, List.length_nil] at hj
        have hj0 : j = 0 := by omega
        simp [hj0])
    0 "boom" (by simp) rfl

theorem claim_C6_witness :
    applyWrites
      ({ path := "static/a.png", content := "old" } ::
        { path := "static/a.png", content := "new" } ::
        [{ path := "static/b.png", content := "z" }])
      (fun _ => none) "static/a.png" = some "new" := by
  have h := claim_C6_success_write_last_wins.2 (fun _ => none)
    [{ path := "static/a.png", content := "old" }]
    [{ path := "static/b.png", content := "z" }]
    { path := "static/a.png", content := "new" }
    (by decide)
  simpa using h

-- ------------------------------------------------------------------
-- Image-failure isolation (claim C5)
-- ------------------------------------------------------------------

theorem imageCalls_no_transport (decode : String → String)
    (imgRespond : Nat → ImageApiResponse)
    (h : ∀ i e, imgRespond i ≠ ImageApiResponse.transportError e) :
    ∀ (n : Nat) (ps : List ImagePromptResponse),
      gatherExcept ((List.enumFrom n ps).map fun ip =>
        generate_image decode ip.2.prompt ip.2.filename (imgRespond ip.1)) =
      Except.ok ((List.enumFrom n ps).map fun ip =>
        match imgRespond ip.1 with
        | ImageApiResponse.success img =>
            { logged := none,
              written := some { path := "static/" ++ ip.2.filename,
                                content := decode img } }
        | _ => { logged := some ("Could not generate image for: " ++ ip.2.prompt),
                 written := none }) := by
  intro n ps
  induction ps generalizing n with
  | nil => rfl
  | cons p ps ih =>
    cases himg : imgRespond n with
    | transportError e => exact absurd himg (h n e)
    | success img =>
      have hhead : generate_image decode p.prompt p.filename (imgRespond n) =
          Except.ok { logged := none,
                      written := some { path := "static/" ++ p.filename,
                                        content := decode img } } := by
        rw [himg]; rfl
      simp only [List.enumFrom, List.map_cons, hhead, gatherExcept, ih (n + 1),
        Except.map, himg]
    | failure =>
      have hhead : generate_image decode p.prompt p.filename (imgRespond n) =
          Except.ok { logged := some ("Could not generate image for: " ++ p.prompt),
                      written := none } := by
        rw [himg]; rfl
      simp only [List.enumFrom, List.map_cons, hhead, gatherExcept, ih (n + 1),
        Except.map, himg]

/-- C5 amended: only a `success=false` image response is caught per call —
logged, no file written, siblings and the run unaffected; if no image call
raises a transport error, the whole batch completes with every successful
payload written and every failed one skipped, and the image phase never
aborts a run that has written its document (an abort can only happen
before any write). A transport error, however, is uncaught and propagates
out of the batch await, terminating the run with an error. -/
theorem claim_C5_amended_isolation :
    (∀ (decode : String → String) (prompt filename : String),
      generate_image decode prompt filename ImageApiResponse.failure =
        Except.ok { logged := some ("Could not generate image for: " ++ prompt),
                    written := none }) ∧
    (∀ (decode : String → String) (prompts : List ImagePromptResponse)
        (imgRespond : Nat → ImageApiResponse),
      (∀ i e, imgRespond i ≠ ImageApiResponse.transportError e) →
      gatherExcept (imageCalls decode prompts imgRespond) =
        Except.ok (prompts.enum.map fun ip =>
          match imgRespond ip.1 with
          | ImageApiResponse.success img =>
              { logged := none,
                written := some { path := "static/" ++ ip.2.filename,
                                  content := decode img } }
          | _ => { logged := some ("Could not generate image for: " ++ ip.2.prompt),
                   written := none })) ∧
    (∀ (serialize : List Node → String) (decode : String → String)
        (prompts : List PromptSchema) (skel : List Node)
        (respond : Nat → Except String WorkerResponse) (order : List Nat)
        (imgRespond : Nat → ImageApiResponse) (e : String),
      (∀ i e', imgRespond i ≠ ImageApiResponse.transportError e') →
      (mainRun serialize decode prompts skel respond order imgRespond).error = some e →
      (mainRun serialize decode prompts skel respond order imgRespond).writes = []) := by
  refine ⟨fun _ _ _ => rfl, ?_, ?_⟩
  · intro decode prompts imgRespond h
    exact imageCalls_no_transport decode imgRespond h 0 prompts
  · intro serialize decode prompts skel respond order imgRespond e h herr
    cases hgs : gatherSections prompts respond order with
    | error e0 =>
      have hm : mainRun serialize decode prompts skel respond order imgRespond =
          { writes := [], error := some e0 } := by
        unfold mainRun
        simp only [hgs]
      rw [hm]
    | ok results =>
      have hok : gatherExcept (imageCalls decode (collectImagePrompts results) imgRespond) =
          Except.ok ((collectImagePrompts results).enum.map fun ip =>
            match imgRespond ip.1 with
            | ImageApiResponse.success img =>
                { logged := none,
                  written := some { path := "static/" ++ ip.2.filename,
                                    content := decode img } }
            | _ => { logged := some ("Could not generate image for: " ++ ip.2.prompt),
                     written := none }) :=
        imageCalls_no_transport decode imgRespond h 0 (collectImagePrompts results)
      cases has : assembleSections skel results with
      | error e0 =>
        have hm : mainRun serialize decode prompts skel respond order imgRespond =
            { writes := [], error := some e0 } := by
          unfold mainRun
          simp only [hgs, has]
        rw [hm]
      | ok t =>
        cases hih : insertHeadBlocks (aggregate (results.map fun r => r.css_code))
            (aggregate (results.map fun r => r.js_code)) t with
        | none =>
          have hm : mainRun serialize decode prompts skel respond order imgRespond =
              { writes := [], error := some "AttributeError: soup has no head" } := by
            unfold mainRun
            simp only [hgs, has, hih]
          rw [hm]
        | some t2 =>
          exfalso
          have hm : (mainRun serialize decode prompts skel respond order imgRespond).error =
              none := by
            unfold mainRun
            simp only [hgs, has, hih, hok]
          rw [hm] at herr
          cases herr

theorem claim_C5_amended_witness :
    gatherExcept (imageCalls (fun s => s)
        [{ prompt := "i1", filename := "a.png" }, { prompt := "i2", filename := "b.png" }]
        (fun i => if i = 0 then ImageApiResponse.failure else ImageApiResponse.success "Q")) =
      Except.ok
        [{ logged := some ("Could not generate image for: " ++ "i1"), written := none },
         { logged := none,
           written := some { path := "static/" ++ "b.png", content := "Q" } }] := by
  have h := claim_C5_amended_isolation.2.1 (fun s => s)
    [{ prompt := "i1", filename := "a.png" }, { prompt := "i2", filename := "b.png" }]
    (fun i => if i = 0 then ImageApiResponse.failure else ImageApiResponse.success "Q")
    (by intro i e
        by_cases hi : i = 0 <;> simp [hi])
  simpa [List.enum, List.enumFrom] using h

-- ------------------------------------------------------------------
-- Tree lemmas: find/replace_with on the parsed skeleton (C1, C7, C10)
-- ------------------------------------------------------------------

theorem countIdF_text (name s : String) (rest : List Node) :
    countIdF name (Node.text s :: rest) = countIdF name rest := by
  simp only [countIdF]

theorem countIdF_elem (name tag : String) (i : Option String) (cs rest : List Node) :
    countIdF name (Node.elem tag i cs :: rest) =
      (if i = some name then 1 else 0) + countIdF name cs + countIdF name rest := by
  simp only [countIdF]

theorem replaceIdF_nil (name : String) (repl : Node) :
    replaceIdF name repl [] = none := by
  simp [replaceIdF]

theorem replaceIdF_text_eq (name : String) (repl : Node) (s : String) (rest : List Node) :
    replaceIdF name repl (Node.text s :: rest) =
      (replaceIdF name repl rest).map (Node.text s :: ·) := by
  simp only [replaceIdF]

theorem replaceIdF_elem_hit (name : String) (repl : Node) (tag : String)
    (cs rest : List Node) :
    replaceIdF name repl (Node.elem tag (some name) cs :: rest) = some (repl :: rest) := by
  simp [replaceIdF]

theorem replaceIdF_elem_miss (name : String) (repl : Node) (tag : String)
    (i : Option String) (cs rest : List Node) (hi : ¬i = some name) :
    replaceIdF name repl (Node.elem tag i cs :: rest) =
      match replaceIdF name repl cs with
      | some cs2 => some (Node.elem tag i cs2 :: rest)
      | none => (replaceIdF name repl rest).map (Node.elem tag i cs :: ·) := by
  simp only [replaceIdF, if_neg hi]

theorem idMem_some_iff (names : List String) (x : String) :
    idMem names (some x) = true ↔ x ∈ names := by
  simp [idMem]

theorem replaceIdF_none_iff (name : String) (repl : Node) (l : List Node) :
    replaceIdF name repl l = none ↔ countIdF name l = 0 := by
  induction l using countIdF.induct name with
  | case1 => simp [replaceIdF, countIdF]
  | case2 s rest ih =>
    simp only [replaceIdF_text_eq, countIdF_text, Option.map_eq_none', ih]
  | case3 tag i cs rest ihcs ihrest =>
    by_cases hi : i = some name
    · subst hi
      rw [replaceIdF_elem_hit, countIdF_elem, if_pos rfl]
      constructor
      · intro hcontra; cases hcontra
      · intro hcontra; omega
    · rw [replaceIdF_elem_miss name repl tag i cs rest hi, countIdF_elem, if_neg hi]
      cases hcs : replaceIdF name repl cs with
      | some cs2 =>
        have hne : countIdF name cs ≠ 0 := by
          intro h0
          rw [← ihcs] at h0
          rw [h0] at hcs
          cases hcs
        constructor
        · intro hcontra; cases hcontra
        · intro hcontra; omega
      | none =>
        have hc0 : countIdF name cs = 0 := ihcs.mp hcs
        rw [hc0]
        simp only [Option.map_eq_none', ihrest]
        omega

theorem countIdF_replace_le (name b : String) (repl : Node)
    (hrepl : countIdF b [repl] = 0) (l : List Node) :
    ∀ l2, replaceIdF name repl l = some l2 → countIdF b l2 ≤ countIdF b l := by
  induction l using countIdF.induct name with
  | case1 => intro l2 h; rw [replaceIdF_nil] at h; cases h
  | case2 s rest ih =>
    intro l2 h
    rw [replaceIdF_text_eq] at h
    obtain ⟨rest2, hrest2, hl2⟩ := Option.map_eq_some'.mp h
    subst hl2
    rw [countIdF_text, countIdF_text]
    exact ih rest2 hrest2
  | case3 tag i cs rest ihcs ihrest =>
    intro l2 h
    by_cases hi : i = some name
    · subst hi
      rw [replaceIdF_elem_hit] at h
      cases h
      rw [countIdF_elem]
      have : countIdF b (repl :: rest) = countIdF b [repl] + countIdF b rest := by
        cases repl with
        | text s => rw [countIdF_text]; simp [countIdF]
        | elem t2 i2 cs2 => rw [countIdF_elem, countIdF_elem]; simp [countIdF]
      rw [this, hrepl]
      omega
    · rw [replaceIdF_elem_miss name repl tag i cs rest hi] at h
      cases hcs : replaceIdF name repl cs with
      | some cs2 =>
        rw [hcs] at h
        cases h
        rw [countIdF_elem, countIdF_elem]
        have := ihcs cs2 hcs
        omega
      | none =>
        rw [hcs] at h
        obtain ⟨rest2, hrest2, hl2⟩ := Option.map_eq_some'.mp h
        subst hl2
        rw [countIdF_elem, countIdF_elem]
        have := ihrest rest2 hrest2
        omega

theorem countIdF_replace_self (name : String) (repl : Node)
    (hrepl : countIdF name [repl] = 0) (l : List Node) :
    ∀ l2, replaceIdF name repl l = some l2 → countIdF name l = 1 →
      countIdF name l2 = 0 := by
  induction l using countIdF.induct name with
  | case1 => intro l2 h; rw [replaceIdF_nil] at h; cases h
  | case2 s rest ih =>
    intro l2 h hc
    rw [replaceIdF_text_eq] at h
    obtain ⟨rest2, hrest2, hl2⟩ := Option.map_eq_some'.mp h
    subst hl2
    rw [countIdF_text] at hc ⊢
    exact ih rest2 hrest2 hc
  | case3 tag i cs rest ihcs ihrest =>
    intro l2 h hc
    rw [countIdF_elem] at hc
    by_cases hi : i = some name
    · subst hi
      rw [replaceIdF_elem_hit] at h
      cases h
      rw [if_pos rfl] at hc
      have hrest0 : countIdF name rest = 0 := by omega
      have : countIdF name (repl :: rest) = countIdF name [repl] + countIdF name rest := by
        cases repl with
        | text s => rw [countIdF_text]; simp [countIdF]
        | elem t2 i2 cs2 => rw [countIdF_elem, countIdF_elem]; simp [countIdF]
      rw [this, hrepl, hrest0]
    · rw [if_neg hi] at hc
      rw [replaceIdF_elem_miss name repl tag i cs rest hi] at h
      cases hcs : replaceIdF name repl cs with
      | some cs2 =>
        rw [hcs] at h
        cases h
        have hne : countIdF name cs ≠ 0 := by
          intro h0
          rw [← replaceIdF_none_iff name repl cs] at h0
          rw [h0] at hcs
          cases hcs
        have hcs1 : countIdF name cs = 1 := by omega
        have hrest0 : countIdF name rest = 0 := by omega
        rw [countIdF_elem, if_neg hi, ihcs cs2 hcs hcs1, hrest0]
      | none =>
        rw [hcs] at h
        obtain ⟨rest2, hrest2, hl2⟩ := Option.map_eq_some'.mp h
        subst hl2
        have hc0 : countIdF name cs = 0 := (replaceIdF_none_iff name repl cs).mp hcs
        have hrest1 : countIdF name rest = 1 := by omega
        rw [countIdF_elem, if_neg hi, hc0, ihrest rest2 hrest2 hrest1]

theorem hasIdIn_text (names : List String) (s : String) (rest : List Node) :
    hasIdIn names (Node.text s :: rest) = hasIdIn names rest := by
  simp only [hasIdIn]

theorem hasIdIn_elem (names : List String) (tag : String) (i : Option String)
    (cs rest : List Node) :
    hasIdIn names (Node.elem tag i cs :: rest) =
      (idMem names i || hasIdIn names cs || hasIdIn names rest) := by
  simp only [hasIdIn]

theorem sectionsFlat_text (names : List String) (s : String) (rest : List Node) :
    sectionsFlat names (Node.text s :: rest) = sectionsFlat names rest := by
  simp only [sectionsFlat]

theorem sectionsFlat_elem (names : List String) (tag : String) (i : Option String)
    (cs rest : List Node) :
    sectionsFlat names (Node.elem tag i cs :: rest) =
      ((if idMem names i then !hasIdIn names cs else sectionsFlat names cs)
        && sectionsFlat names rest) := by
  simp only [sectionsFlat]

theorem textOutside_text (names : List String) (s t : String) (rest : List Node) :
    textOutside names s (Node.text t :: rest) =
      ((t = s : Bool) || textOutside names s rest) := by
  simp only [textOutside]

theorem textOutside_elem (names : List String) (s tag : String) (i : Option String)
    (cs rest : List Node) :
    textOutside names s (Node.elem tag i cs :: rest) =
      ((if idMem names i then false else textOutside names s cs)
        || textOutside names s rest) := by
  simp only [textOutside]

theorem countIdF_zero_of_hasIdIn_false (names : List String) (b : String)
    (hb : b ∈ names) (l : List Node) (h : hasIdIn names l = false) :
    countIdF b l = 0 := by
  induction l using countIdF.induct b with
  | case1 => simp [countIdF]
  | case2 s rest ih =>
    rw [hasIdIn_text] at h
    rw [countIdF_text]
    exact ih h
  | case3 tag i cs rest ihcs ihrest =>
    rw [hasIdIn_elem] at h
    simp only [Bool.or_eq_false_iff] at h
    obtain ⟨⟨hid, hcs⟩, hrest⟩ := h
    have hib : ¬ i = some b := by
      intro hi
      subst hi
      rw [(idMem_some_iff names b).mpr hb] at hid
      cases hid
    rw [countIdF_elem, if_neg hib, ihcs hcs, ihrest hrest]

theorem countIdF_replace_other (names : List String) (a b : String) (repl : Node)
    (hrepl : countIdF b [repl] = 0)
    (ha : a ∈ names) (hb : b ∈ names) (hba : b ≠ a) (l : List Node) :
    ∀ l2, sectionsFlat names l = true → replaceIdF a repl l = some l2 →
      countIdF b l2 = countIdF b l := by
  induction l using countIdF.induct a with
  | case1 => intro l2 _ h; rw [replaceIdF_nil] at h; cases h
  | case2 s rest ih =>
    intro l2 hflat h
    rw [replaceIdF_text_eq] at h
    obtain ⟨rest2, hrest2, hl2⟩ := Option.map_eq_some'.mp h
    subst hl2
    rw [sectionsFlat_text] at hflat
    rw [countIdF_text, countIdF_text]
    exact ih rest2 hflat hrest2
  | case3 tag i cs rest ihcs ihrest =>
    intro l2 hflat h
    rw [sectionsFlat_elem, Bool.and_eq_true] at hflat
    obtain ⟨hhead, hrest⟩ := hflat
    by_cases hi : i = some a
    · subst hi
      rw [replaceIdF_elem_hit] at h
      cases h
      have hid : idMem names (some a) = true := (idMem_some_iff names a).mpr ha
      rw [hid] at hhead
      simp only [if_true, Bool.not_eq_true'] at hhead
      have hcs0 : countIdF b cs = 0 := countIdF_zero_of_hasIdIn_false names b hb cs hhead
      have hib : ¬ (some a = some b) := by
        intro hh; exact hba (Option.some.injEq a b ▸ hh).symm
      have : countIdF b (repl :: rest) = countIdF b [repl] + countIdF b rest := by
        cases repl with
        | text s => rw [countIdF_text]; simp [countIdF]
        | elem t2 i2 cs2 => rw [countIdF_elem, countIdF_elem]; simp [countIdF]
      rw [this, hrepl, countIdF_elem, if_neg hib, hcs0]
    · rw [replaceIdF_elem_miss a repl tag i cs rest hi] at h
      cases hcs : replaceIdF a repl cs with
      | some cs2 =>
        rw [hcs] at h
        cases h
        have hflatcs : sectionsFlat names cs = true := by
          by_cases hid : idMem names i = true
          · rw [hid] at hhead
            simp only [if_true, Bool.not_eq_true'] at hhead
            have hcs0 : countIdF a cs = 0 :=
              countIdF_zero_of_hasIdIn_false names a ha cs hhead
            rw [← replaceIdF_none_iff a repl cs] at hcs0
            rw [hcs0] at hcs
            cases hcs
          · rw [Bool.not_eq_true] at hid
            rw [hid] at hhead
            simpa using hhead
        rw [countIdF_elem, countIdF_elem, ihcs cs2 hflatcs hcs]
      | none =>
        rw [hcs] at h
        obtain ⟨rest2, hrest2, hl2⟩ := Option.map_eq_some'.mp h
        subst hl2
        rw [countIdF_elem, countIdF_elem, ihrest rest2 hrest hrest2]

theorem sectionsFlat_replace (names : List String) (a : String) (h : String)
    (ha : a ∈ names) (l : List Node) :
    ∀ l2, sectionsFlat names l = true →
      replaceIdF a (Node.text h) l = some l2 → sectionsFlat names l2 = true := by
  induction l using countIdF.induct a with
  | case1 => intro l2 _ hr; rw [replaceIdF_nil] at hr; cases hr
  | case2 s rest ih =>
    intro l2 hflat hr
    rw [replaceIdF_text_eq] at hr
    obtain ⟨rest2, hrest2, hl2⟩ := Option.map_eq_some'.mp hr
    subst hl2
    rw [sectionsFlat_text] at hflat ⊢
    exact ih rest2 hflat hrest2
  | case3 tag i cs rest ihcs ihrest =>
    intro l2 hflat hr
    rw [sectionsFlat_elem, Bool.and_eq_true] at hflat
    obtain ⟨hhead, hrest⟩ := hflat
    by_cases hi : i = some a
    · subst hi
      rw [replaceIdF_elem_hit] at hr
      cases hr
      rw [sectionsFlat_text]
      exact hrest
    · rw [replaceIdF_elem_miss a (Node.text h) tag i cs rest hi] at hr
      cases hcs : replaceIdF a (Node.text h) cs with
      | some cs2 =>
        rw [hcs] at hr
        cases hr
        by_cases hid : idMem names i = true
        · rw [hid] at hhead
          simp only [if_true, Bool.not_eq_true'] at hhead
          have hcs0 : countIdF a cs = 0 :=
            countIdF_zero_of_hasIdIn_false names a ha cs hhead
          rw [← replaceIdF_none_iff a (Node.text h) cs] at hcs0
          rw [hcs0] at hcs
          cases hcs
        · rw [Bool.not_eq_true] at hid
          rw [hid] at hhead
          rw [sectionsFlat_elem, hid, Bool.and_eq_true]
          exact ⟨ihcs cs2 (by simpa using hhead) hcs, hrest⟩
      | none =>
        rw [hcs] at hr
        obtain ⟨rest2, hrest2, hl2⟩ := Option.map_eq_some'.mp hr
        subst hl2
        rw [sectionsFlat_elem, Bool.and_eq_true]
        exact ⟨hhead, ihrest rest2 hrest hrest2⟩

theorem textOutside_replace_new (names : List String) (a h : String)
    (ha : a ∈ names) (l : List Node) :
    ∀ l2, sectionsFlat names l = true →
      replaceIdF a (Node.text h) l = some l2 → textOutside names h l2 = true := by
  induction l using countIdF.induct a with
  | case1 => intro l2 _ hr; rw [replaceIdF_nil] at hr; cases hr
  | case2 s rest ih =>
    intro l2 hflat hr
    rw [replaceIdF_text_eq] at hr
    obtain ⟨rest2, hrest2, hl2⟩ := Option.map_eq_some'.mp hr
    subst hl2
    rw [sectionsFlat_text] at hflat
    rw [textOutside_text, ih rest2 hflat hrest2, Bool.or_true]
  | case3 tag i cs rest ihcs ihrest =>
    intro l2 hflat hr
    rw [sectionsFlat_elem, Bool.and_eq_true] at hflat
    obtain ⟨hhead, hrest⟩ := hflat
    by_cases hi : i = some a
    · subst hi
      rw [replaceIdF_elem_hit] at hr
      cases hr
      rw [textOutside_text]
      simp
    · rw [replaceIdF_elem_miss a (Node.text h) tag i cs rest hi] at hr
      cases hcs : replaceIdF a (Node.text h) cs with
      | some cs2 =>
        rw [hcs] at hr
        cases hr
        by_cases hid : idMem names i = true
        · rw [hid] at hhead
          simp only [if_true, Bool.not_eq_true'] at hhead
          have hcs0 : countIdF a cs = 0 :=
            countIdF_zero_of_hasIdIn_false names a ha cs hhead
          rw [← replaceIdF_none_iff a (Node.text h) cs] at hcs0
          rw [hcs0] at hcs
          cases hcs
        · rw [Bool.not_eq_true] at hid
          rw [hid] at hhead
          rw [textOutside_elem, hid]
          rw [ihcs cs2 (by simpa using hhead) hcs]
          simp
      | none =>
        rw [hcs] at hr
        obtain ⟨rest2, hrest2, hl2⟩ := Option.map_eq_some'.mp hr
        subst hl2
        rw [textOutside_elem, ihrest rest2 hrest hrest2, Bool.or_true]

theorem textOutside_replace_keep (names : List String) (a h s : String)
    (ha : a ∈ names) (l : List Node) :
    ∀ l2, textOutside names s l = true →
      replaceIdF a (Node.text h) l = some l2 → textOutside names s l2 = true := by
  induction l using countIdF.induct a with
  | case1 => intro l2 _ hr; rw [replaceIdF_nil] at hr; cases hr
  | case2 t rest ih =>
    intro l2 hout hr
    rw [replaceIdF_text_eq] at hr
    obtain ⟨rest2, hrest2, hl2⟩ := Option.map_eq_some'.mp hr
    subst hl2
    rw [textOutside_text, Bool.or_eq_true] at hout ⊢
    rcases hout with hts | hout
    · exact Or.inl hts
    · exact Or.inr (ih rest2 hout hrest2)
  | case3 tag i cs rest ihcs ihrest =>
    intro l2 hout hr
    rw [textOutside_elem, Bool.or_eq_true] at hout
    by_cases hi : i = some a
    · subst hi
      rw [replaceIdF_elem_hit] at hr
      cases hr
      have hid : idMem names (some a) = true := (idMem_some_iff names a).mpr ha
      rw [hid] at hout
      simp only [if_true] at hout
      rcases hout with hcontra | hout
      · cases hcontra
      · rw [textOutside_text, hout, Bool.or_true]
    · rw [replaceIdF_elem_miss a (Node.text h) tag i cs rest hi] at hr
      cases hcs : replaceIdF a (Node.text h) cs with
      | some cs2 =>
        rw [hcs] at hr
        cases hr
        rw [textOutside_elem, Bool.or_eq_true]
        rcases hout with hleft | hout
        · by_cases hid : idMem names i = true
          · rw [hid] at hleft; cases hleft
          · rw [Bool.not_eq_true] at hid
            simp only [hid, Bool.false_eq_true, if_false] at hleft ⊢
            exact Or.inl (ihcs cs2 hleft hcs)
        · exact Or.inr hout
      | none =>
        rw [hcs] at hr
        obtain ⟨rest2, hrest2, hl2⟩ := Option.map_eq_some'.mp hr
        subst hl2
        rw [textOutside_elem, Bool.or_eq_true]
        rcases hout with hleft | hout
        · exact Or.inl hleft
        · exact Or.inr (ihrest rest2 hout hrest2)

theorem findHeadChildren_nil : findHeadChildren ([] : List Node) = none := by
  simp [findHeadChildren]

theorem findHeadChildren_text (s : String) (rest : List Node) :
    findHeadChildren (Node.text s :: rest) = findHeadChildren rest := by
  simp only [findHeadChildren]

theorem findHeadChildren_elem (tag : String) (i : Option String) (cs rest : List Node) :
    findHeadChildren (Node.elem tag i cs :: rest) =
      if tag = "head" then some cs
      else
        match findHeadChildren cs with
        | some r => some r
        | none => findHeadChildren rest := by
  simp only [findHeadChildren]

theorem findHeadChildren_replace_none (a h : String) (l : List Node) :
    ∀ l2, findHeadChildren l = none → replaceIdF a (Node.text h) l = some l2 →
      findHeadChildren l2 = none := by
  induction l using countIdF.induct a with
  | case1 => intro l2 _ hr; rw [replaceIdF_nil] at hr; cases hr
  | case2 s rest ih =>
    intro l2 hl hr
    rw [replaceIdF_text_eq] at hr
    obtain ⟨rest2, hrest2, hl2⟩ := Option.map_eq_some'.mp hr
    subst hl2
    rw [findHeadChildren_text] at hl ⊢
    exact ih rest2 hl hrest2
  | case3 tag i cs rest ihcs ihrest =>
    intro l2 hl hr
    rw [findHeadChildren_elem] at hl
    by_cases htag : tag = "head"
    · rw [if_pos htag] at hl
      cases hl
    · rw [if_neg htag] at hl
      have hcsn : findHeadChildren cs = none := by
        cases hfc : findHeadChildren cs with
        | none => rfl
        | some r => rw [hfc] at hl; cases hl
      rw [hcsn] at hl
      by_cases hi : i = some a
      · subst hi
        rw [replaceIdF_elem_hit] at hr
        cases hr
        rw [findHeadChildren_text]
        exact hl
      · rw [replaceIdF_elem_miss a (Node.text h) tag i cs rest hi] at hr
        cases hcs : replaceIdF a (Node.text h) cs with
        | some cs2 =>
          rw [hcs] at hr
          cases hr
          rw [findHeadChildren_elem, if_neg htag, ihcs cs2 hcsn hcs]
          exact hl
        | none =>
          rw [hcs] at hr
          obtain ⟨rest2, hrest2, hl2⟩ := Option.map_eq_some'.mp hr
          subst hl2
          rw [findHeadChildren_elem, if_neg htag, hcsn]
          exact ihrest rest2 hl hrest2

theorem mapHead_text (f : List Node → List Node) (s : String) (rest : List Node) :
    mapHead f (Node.text s :: rest) = (mapHead f rest).map (Node.text s :: ·) := by
  simp only [mapHead]

theorem mapHead_elem (f : List Node → List Node) (tag : String) (i : Option String)
    (cs rest : List Node) :
    mapHead f (Node.elem tag i cs :: rest) =
      if tag = "head" then some (Node.elem tag i (f cs) :: rest)
      else
        match mapHead f cs with
        | some cs2 => some (Node.elem tag i cs2 :: rest)
        | none => (mapHead f rest).map (Node.elem tag i cs :: ·) := by
  simp only [mapHead]

theorem mapHead_none_iff (f : List Node → List Node) (l : List Node) :
    mapHead f l = none ↔ findHeadChildren l = none := by
  induction l using countIdF.induct "head" with
  | case1 => simp [mapHead, findHeadChildren]
  | case2 s rest ih =>
    rw [mapHead_text, findHeadChildren_text, Option.map_eq_none', ih]
  | case3 tag i cs rest ihcs ihrest =>
    rw [mapHead_elem, findHeadChildren_elem]
    by_cases htag : tag = "head"
    · rw [if_pos htag, if_pos htag]
      constructor
      · intro hcontra; cases hcontra
      · intro hcontra; cases hcontra
    · rw [if_neg htag, if_neg htag]
      cases hmc : mapHead f cs with
      | some cs2 =>
        have hfc : findHeadChildren cs ≠ none := by
          intro hn
          rw [← ihcs] at hn
          rw [hn] at hmc
          cases hmc
        cases hfc2 : findHeadChildren cs with
        | none => exact absurd hfc2 hfc
        | some r =>
          constructor
          · intro hcontra; cases hcontra
          · intro hcontra; cases hcontra
      | none =>
        rw [ihcs] at hmc
        rw [hmc, Option.map_eq_none']
        exact ihrest

theorem mapHead_some (f : List Node → List Node) (l : List Node) :
    ∀ cs, findHeadChildren l = some cs →
      ∃ l2, mapHead f l = some l2 ∧ findHeadChildren l2 = some (f cs) := by
  induction l using countIdF.induct "head" with
  | case1 => intro cs h; rw [findHeadChildren_nil] at h; cases h
  | case2 s rest ih =>
    intro cs h
    rw [findHeadChildren_text] at h
    obtain ⟨l2, hm, hf⟩ := ih cs h
    exact ⟨Node.text s :: l2, by rw [mapHead_text, hm]; rfl,
      by rw [findHeadChildren_text]; exact hf⟩
  | case3 tag i cs0 rest ihcs ihrest =>
    intro cs h
    rw [findHeadChildren_elem] at h
    by_cases htag : tag = "head"
    · rw [if_pos htag] at h
      injection h with h2
      refine ⟨Node.elem tag i (f cs0) :: rest, by rw [mapHead_elem, if_pos htag], ?_⟩
      rw [findHeadChildren_elem, if_pos htag, h2]
    · rw [if_neg htag] at h
      cases hfc : findHeadChildren cs0 with
      | some r =>
        rw [hfc] at h
        cases h
        obtain ⟨cs2, hm, hf⟩ := ihcs cs hfc
        refine ⟨Node.elem tag i cs2 :: rest, ?_, ?_⟩
        · rw [mapHead_elem, if_neg htag, hm]
        · rw [findHeadChildren_elem, if_neg htag, hf]
      | none =>
        rw [hfc] at h
        obtain ⟨rest2, hm, hf⟩ := ihrest cs h
        have hmc : mapHead f cs0 = none := (mapHead_none_iff f cs0).mpr hfc
        refine ⟨Node.elem tag i cs0 :: rest2, ?_, ?_⟩
        · rw [mapHead_elem, if_neg htag, hmc, hm]
          rfl
        · rw [findHeadChildren_elem, if_neg htag, hfc]
          exact hf

theorem assembleSections_cons (t : List Node) (r : SectionResult) (rs : List SectionResult) :
    assembleSections t (r :: rs) =
      match replaceIdF r.section_name (Node.text r.html_code) t with
      | some t2 => assembleSections t2 rs
      | none => Except.error ("AttributeError: no node with id " ++ r.section_name) := by
  simp only [assembleSections]

/-- Master induction for the replacement loop (lines 143-147): for a valid
plan (each section name present exactly once, names distinct, section
nodes not nested), every replacement succeeds; afterwards no section
identifier remains addressable and every section's html sits in the tree
outside all section nodes. -/
theorem assemble_go (names : List String) (results : List SectionResult) :
    ∀ t : List Node,
      (∀ r ∈ results, r.section_name ∈ names) →
      (∀ r ∈ results, countIdF r.section_name t = 1) →
      (results.map fun r => r.section_name).Nodup →
      sectionsFlat names t = true →
      ∃ t2, assembleSections t results = Except.ok t2 ∧
        sectionsFlat names t2 = true ∧
        (∀ s, textOutside names s t = true → textOutside names s t2 = true) ∧
        (∀ b ∈ names, (∀ r ∈ results, r.section_name ≠ b) →
          countIdF b t2 = countIdF b t) ∧
        (∀ r ∈ results, countIdF r.section_name t2 = 0) ∧
        (∀ r ∈ results, textOutside names r.html_code t2 = true) := by
  induction results with
  | nil =>
    intro t _ _ _ hflat
    exact ⟨t, rfl, hflat, fun s hs => hs, fun b _ _ => rfl, by simp, by simp⟩
  | cons r rs ih =>
    intro t hmem hcount hnodup hflat
    have hr1 : countIdF r.section_name t = 1 := hcount r (List.mem_cons_self r rs)
    have hra : r.section_name ∈ names := hmem r (List.mem_cons_self r rs)
    have hnodup2 : (r.section_name :: rs.map fun r => r.section_name).Nodup := by
      simpa using hnodup
    obtain ⟨hnotin, hnodup3⟩ := List.nodup_cons.mp hnodup2
    cases ht1 : replaceIdF r.section_name (Node.text r.html_code) t with
    | none =>
      rw [replaceIdF_none_iff] at ht1
      omega
    | some t1 =>
      have hrepl0 : countIdF r.section_name [Node.text r.html_code] = 0 := by
        simp [countIdF]
      have hc0 : countIdF r.section_name t1 = 0 :=
        countIdF_replace_self r.section_name (Node.text r.html_code) hrepl0 t t1 ht1 hr1
      have hflat1 : sectionsFlat names t1 = true :=
        sectionsFlat_replace names r.section_name r.html_code hra t t1 hflat ht1
      have hcount1 : ∀ r2 ∈ rs, countIdF r2.section_name t1 = 1 := by
        intro r2 h2
        have hb : r2.section_name ∈ names := hmem r2 (List.mem_cons_of_mem r h2)
        have hba : r2.section_name ≠ r.section_name := by
          intro heq
          exact hnotin (heq ▸ List.mem_map_of_mem (fun r => r.section_name) h2)
        rw [countIdF_replace_other names r.section_name r2.section_name
          (Node.text r.html_code) (by simp [countIdF]) hra hb hba t t1 hflat ht1]
        exact hcount r2 (List.mem_cons_of_mem r h2)
      obtain ⟨t2, hass, hflat2, hpres, hother, hzero, htexts⟩ :=
        ih t1 (fun r2 h2 => hmem r2 (List.mem_cons_of_mem r h2)) hcount1 hnodup3 hflat1
      have htext1 : textOutside names r.html_code t1 = true :=
        textOutside_replace_new names r.section_name r.html_code hra t t1 hflat ht1
      refine ⟨t2, ?_, hflat2, ?_, ?_, ?_, ?_⟩
      · rw [assembleSections_cons, ht1]
        exact hass
      · intro s hs
        exact hpres s
          (textOutside_replace_keep names r.section_name r.html_code s hra t t1 hs ht1)
      · intro b hbnames hbne
        have hbner : r.section_name ≠ b := hbne r (List.mem_cons_self r rs)
        have hbrs : ∀ r2 ∈ rs, r2.section_name ≠ b :=
          fun r2 h2 => hbne r2 (List.mem_cons_of_mem r h2)
        rw [hother b hbnames hbrs]
        exact countIdF_replace_other names r.section_name b (Node.text r.html_code)
          (by simp [countIdF]) hra hbnames (Ne.symm hbner) t t1 hflat ht1
      · intro r2 h2
        rcases List.mem_cons.mp h2 with h2r | h2rs
        · subst h2r
          rw [hother r2.section_name hra
            (fun r3 h3 heq => hnotin (heq ▸ List.mem_map_of_mem (fun r => r.section_name) h3))]
          exact hc0
        · exact hzero r2 h2rs
      · intro r2 h2
        rcases List.mem_cons.mp h2 with h2r | h2rs
        · subst h2r
          exact hpres r2.html_code htext1
        · exact htexts r2 h2rs

/-- C1: for every `Plan` with `k` section prompts, exactly `k` section
tasks are dispatched (the loop at lines 134-137), the task at position `i`
carries worker index `i` and prompt `i`; `asyncio.gather` (line 138)
delivers the results positionally whatever the completion order; and for a
valid plan (each `section_name` addressing exactly one, non-nested node of
the skeleton, names distinct) the replacement loop (lines 143-147)
succeeds, each identified node is replaced by that section's html text,
and no placeholder identifier remains addressable in the output tree. -/
theorem claim_C1_fanout_and_assembly
    (prompts : List PromptSchema) (skel : List Node)
    (respond : Nat → Except String WorkerResponse) (order : List Nat)
    (results : List SectionResult)
    (horder : ∀ j, j < prompts.length → j ∈ order)
    (hok : gatherSections prompts respond order = Except.ok results)
    (hnodup : (results.map fun r => r.section_name).Nodup)
    (hcount : ∀ r ∈ results, countIdF r.section_name skel = 1)
    (hflat : sectionsFlat (results.map fun r => r.section_name) skel = true) :
    (sectionTasks prompts).length = prompts.length ∧
    (∀ i : Nat, ∀ p : PromptSchema, prompts[i]? = some p →
      (sectionTasks prompts)[i]? =
        some { workerIndex := i, section_name := p.section_name, prompt := p.prompt }) ∧
    planOutcomes prompts respond = results.map Except.ok ∧
    ∃ t2, assembleSections skel results = Except.ok t2 ∧
      (∀ r ∈ results, countIdF r.section_name t2 = 0) ∧
      (∀ r ∈ results,
        textOutside (results.map fun r => r.section_name) r.html_code t2 = true) := by
  have hgr : gatherResults (planOutcomes prompts respond) order =
      planOutcomes prompts respond := by
    apply gatherResults_complete
    intro j hj
    exact horder j (by rwa [planOutcomes_length] at hj)
  rw [gatherSections_eq, hgr] at hok
  have hcorr := gatherExcept_ok_elim _ _ hok
  refine ⟨by simp [sectionTasks], fun i p hp => sectionTasks_getElem? prompts i p hp,
    hcorr, ?_⟩
  obtain ⟨t2, hass, _, _, _, hzero, htexts⟩ :=
    assemble_go (results.map fun r => r.section_name) results skel
      (fun r hr => List.mem_map_of_mem _ hr) hcount hnodup hflat
  exact ⟨t2, hass, hzero, htexts⟩

-- ------------------------------------------------------------------
-- Step equations and run-outcome lemmas (used by claims and witnesses)
-- ------------------------------------------------------------------

theorem assembleSections_nil (t : List Node) : assembleSections t [] = Except.ok t := rfl

theorem assembleSections_step (t : List Node) (r : SectionResult) (rs : List SectionResult)
    (t1 : List Node) (h : replaceIdF r.section_name (Node.text r.html_code) t = some t1) :
    assembleSections t (r :: rs) = assembleSections t1 rs := by
  rw [assembleSections_cons, h]

theorem insertHeadBlocks_head_hit (css js : String) (i : Option String)
    (cs rest : List Node) :
    insertHeadBlocks css js (Node.elem "head" i cs :: rest) =
      some (Node.elem "head" i
        (insertAt 1 (scriptBlock js) (insertAt 1 (styleBlock css) cs)) :: rest) := by
  unfold insertHeadBlocks
  rw [mapHead_elem, if_pos rfl]

theorem insertHeadBlocks_text_step (css js s : String) (rest rest2 : List Node)
    (h : insertHeadBlocks css js rest = some rest2) :
    insertHeadBlocks css js (Node.text s :: rest) = some (Node.text s :: rest2) := by
  unfold insertHeadBlocks at h ⊢
  rw [mapHead_text, h]
  rfl

theorem aggregate_all_none (xs : List (Option String)) (h : ∀ x ∈ xs, x = none) :
    aggregate xs = "" := by
  have hnil : xs.filterMap id = [] := by
    rw [List.filterMap_eq_nil_iff]
    exact h
  rw [aggregate, hnil]
  rfl

theorem mainRun_assembly_error (serialize : List Node → String) (decode : String → String)
    (prompts : List PromptSchema) (skel : List Node)
    (respond : Nat → Except String WorkerResponse) (order : List Nat)
    (imgRespond : Nat → ImageApiResponse) (results : List SectionResult) (e : String)
    (hgs : gatherSections prompts respond order = Except.ok results)
    (has : assembleSections skel results = Except.error e) :
    mainRun serialize decode prompts skel respond order imgRespond =
      { writes := [], error := some e } := by
  unfold mainRun
  simp only [hgs, has]

theorem mainRun_nohead (serialize : List Node → String) (decode : String → String)
    (prompts : List PromptSchema) (skel : List Node)
    (respond : Nat → Except String WorkerResponse) (order : List Nat)
    (imgRespond : Nat → ImageApiResponse) (results : List SectionResult) (t : List Node)
    (hgs : gatherSections prompts respond order = Except.ok results)
    (has : assembleSections skel results = Except.ok t)
    (hih : insertHeadBlocks (aggregate (results.map fun r => r.css_code))
        (aggregate (results.map fun r => r.js_code)) t = none) :
    mainRun serialize decode prompts skel respond order imgRespond =
      { writes := [], error := some "AttributeError: soup has no head" } := by
  unfold mainRun
  simp only [hgs, has, hih]

theorem mainRun_image_error (serialize : List Node → String) (decode : String → String)
    (prompts : List PromptSchema) (skel : List Node)
    (respond : Nat → Except String WorkerResponse) (order : List Nat)
    (imgRespond : Nat → ImageApiResponse) (results : List SectionResult)
    (t t2 : List Node) (e : String)
    (hgs : gatherSections prompts respond order = Except.ok results)
    (has : assembleSections skel results = Except.ok t)
    (hih : insertHeadBlocks (aggregate (results.map fun r => r.css_code))
        (aggregate (results.map fun r => r.js_code)) t = some t2)
    (hic : gatherExcept (imageCalls decode (collectImagePrompts results) imgRespond) =
        Except.error e) :
    (mainRun serialize decode prompts skel respond order imgRespond).error = some e := by
  unfold mainRun
  simp only [hgs, has, hih, hic]

-- ------------------------------------------------------------------
-- Claim C5 counterexample (placed here to use the step lemmas)
-- ------------------------------------------------------------------

/-- C5 counterexample: a transport error in one image call is not caught
anywhere (`generate_image`, lines 65-72, has no try/except), so it
propagates through the image `asyncio.gather` and the run terminates with
the exception — refuting the claim that every image failure is caught per
call and never aborts the overall run. -/
theorem claim_C5_counterexample :
    (mainRun (fun _ => "") (fun s => s) [{ section_name := "hero", prompt := "p" }]
        [Node.elem "div" (some "hero") [], Node.elem "head" none [Node.text "base"]]
        (fun _ => Except.ok { image_prompts := [{ prompt := "i1", filename := "a.png" },
                                                { prompt := "i2", filename := "b.png" }],
                              html_code := "H", css_code := none, js_code := none })
        [0]
        (fun i => if i = 0 then ImageApiResponse.success "x"
                  else ImageApiResponse.transportError "boom")).error = some "boom" := by
  have hgs : gatherSections [{ section_name := "hero", prompt := "p" }]
      (fun _ => Except.ok { image_prompts := [{ prompt := "i1", filename := "a.png" },
                                              { prompt := "i2", filename := "b.png" }],
                            html_code := "H", css_code := none, js_code := none }) [0] =
      Except.ok [{ section_name := "hero", html_code := "H", css_code := none,
                   js_code := none,
                   image_prompts := [{ prompt := "i1", filename := "a.png" },
                                     { prompt := "i2", filename := "b.png" }] }] := rfl
  have hrep : replaceIdF "hero" (Node.text "H")
      [Node.elem "div" (some "hero") [], Node.elem "head" none [Node.text "base"]] =
      some (Node.text "H" :: [Node.elem "head" none [Node.text "base"]]) :=
    replaceIdF_elem_hit "hero" (Node.text "H") "div" []
      [Node.elem "head" none [Node.text "base"]]
  have has : assembleSections
      [Node.elem "div" (some "hero") [], Node.elem "head" none [Node.text "base"]]
      [{ section_name := "hero", html_code := "H", css_code := none, js_code := none,
         image_prompts := [{ prompt := "i1", filename := "a.png" },
                           { prompt := "i2", filename := "b.png" }] }] =
      Except.ok [Node.text "H", Node.elem "head" none [Node.text "base"]] := by
    rw [assembleSections_step _ _ [] _ hrep]
    exact assembleSections_nil _
  have hic : gatherExcept (imageCalls (fun s => s)
      (collectImagePrompts
        [{ section_name := "hero", html_code := "H", css_code := none, js_code := none,
           image_prompts := [{ prompt := "i1", filename := "a.png" },
                             { prompt := "i2", filename := "b.png" }] }])
      (fun i => if i = 0 then ImageApiResponse.success "x"
                else ImageApiResponse.transportError "boom")) =
      Except.error "boom" := rfl
  exact mainRun_image_error _ _ _ _ _ _ _ _ _ _ "boom" hgs has
    (insertHeadBlocks_text_step _ _ "H" _ _
      (insertHeadBlocks_head_hit _ _ none [Node.text "base"] [])) hic

-- ------------------------------------------------------------------
-- Claim C7: assembly lookup failure
-- ------------------------------------------------------------------

theorem assembleSections_error_of_missing (results : List SectionResult) :
    ∀ t : List Node, (∃ r ∈ results, countIdF r.section_name t = 0) →
      ∃ e, assembleSections t results = Except.error e := by
  induction results with
  | nil =>
    intro t h
    obtain ⟨r, hr, _⟩ := h
    cases hr
  | cons r0 rs ih =>
    intro t h
    obtain ⟨r, hr, hc⟩ := h
    cases ht1 : replaceIdF r0.section_name (Node.text r0.html_code) t with
    | none =>
      refine ⟨"AttributeError: no node with id " ++ r0.section_name, ?_⟩
      rw [assembleSections_cons, ht1]
    | some t1 =>
      rcases List.mem_cons.mp hr with hr0 | hrs
      · subst hr0
        have hnone := (replaceIdF_none_iff r.section_name (Node.text r.html_code) t).mpr hc
        rw [hnone] at ht1
        cases ht1
      · have hle := countIdF_replace_le r0.section_name r.section_name
          (Node.text r0.html_code) (by simp [countIdF]) t t1 ht1
        obtain ⟨e, he⟩ := ih t1 ⟨r, hrs, by omega⟩
        refine ⟨e, ?_⟩
        rw [assembleSections_step t r0 rs t1 ht1]
        exact he

/-- C7: when a `section_name` has no matching node in the parsed skeleton,
`soup.find(id=...)` returns `None` and `.replace_with` raises an
`AttributeError` (line 147): assembly fails with a surfaced error, the run
terminates, and no output document file is produced. -/
theorem claim_C7_missing_section_aborts
    (serialize : List Node → String) (decode : String → String)
    (prompts : List PromptSchema) (skel : List Node)
    (respond : Nat → Except String WorkerResponse) (order : List Nat)
    (imgRespond : Nat → ImageApiResponse) (results : List SectionResult)
    (hok : gatherSections prompts respond order = Except.ok results)
    (r : SectionResult) (hr : r ∈ results)
    (hmissing : countIdF r.section_name skel = 0) :
    (∃ e, assembleSections skel results = Except.error e) ∧
    (mainRun serialize decode prompts skel respond order imgRespond).writes = [] ∧
    (mainRun serialize decode prompts skel respond order imgRespond).error.isSome = true := by
  obtain ⟨e, he⟩ := assembleSections_error_of_missing results skel ⟨r, hr, hmissing⟩
  have hm := mainRun_assembly_error serialize decode prompts skel respond order
    imgRespond results e hok he
  rw [hm]
  exact ⟨⟨e, he⟩, rfl, rfl⟩

theorem claim_C7_witness :
    (∃ e, assembleSections [Node.elem "body" none []]
      [{ section_name := "hero", html_code := "H", css_code := none, js_code := none,
         image_prompts := [] }] = Except.error e) ∧
    (mainRun (fun _ => "") (fun s => s) [{ section_name := "hero", prompt := "p" }]
        [Node.elem "body" none []]
        (fun _ => Except.ok { image_prompts := [], html_code := "H",
                              css_code := none, js_code := none })
        [0] (fun _ => ImageApiResponse.failure)).writes = [] ∧
    (mainRun (fun _ => "") (fun s => s) [{ section_name := "hero", prompt := "p" }]
        [Node.elem "body" none []]
        (fun _ => Except.ok { image_prompts := [], html_code := "H",
                              css_code := none, js_code := none })
        [0] (fun _ => ImageApiResponse.failure)).error.isSome = true :=
  claim_C7_missing_section_aborts (fun _ => "") (fun s => s)
    [{ section_name := "hero", prompt := "p" }] [Node.elem "body" none []]
    (fun _ => Except.ok { image_prompts := [], html_code := "H",
                          css_code := none, js_code := none })
    [0] (fun _ => ImageApiResponse.failure)
    [{ section_name := "hero", html_code := "H", css_code := none, js_code := none,
       image_prompts := [] }]
    rfl
    ({ section_name := "hero", html_code := "H", css_code := none, js_code := none,
       image_prompts := [] } : SectionResult)
    (by simp)
    (by simp [countIdF])

-- ------------------------------------------------------------------
-- Claim C10: assembly requires a head element
-- ------------------------------------------------------------------

theorem assembleSections_headless (results : List SectionResult) :
    ∀ t t2 : List Node, findHeadChildren t = none →
      assembleSections t results = Except.ok t2 → findHeadChildren t2 = none := by
  induction results with
  | nil =>
    intro t t2 hh hass
    rw [assembleSections_nil] at hass
    cases hass
    exact hh
  | cons r rs ih =>
    intro t t2 hh hass
    cases ht1 : replaceIdF r.section_name (Node.text r.html_code) t with
    | none =>
      rw [assembleSections_cons, ht1] at hass
      cases hass
    | some t1 =>
      rw [assembleSections_step t r rs t1 ht1] at hass
      exact ih t1 t2 (findHeadChildren_replace_none r.section_name r.html_code t t1 hh ht1)
        hass

/-- C10: when the plan's skeleton has no head element, replacements never
create one (they insert text nodes only), so `soup.head` is `None` and
`soup.head.insert` (line 151) raises before `index.html` is written
(lines 155-156): the run errors out and no document file is produced. -/
theorem claim_C10_missing_head_aborts
    (serialize : List Node → String) (decode : String → String)
    (prompts : List PromptSchema) (skel : List Node)
    (respond : Nat → Except String WorkerResponse) (order : List Nat)
    (imgRespond : Nat → ImageApiResponse) (results : List SectionResult)
    (hok : gatherSections prompts respond order = Except.ok results)
    (hnohead : findHeadChildren skel = none) :
    (mainRun serialize decode prompts skel respond order imgRespond).writes = [] ∧
    (mainRun serialize decode prompts skel respond order imgRespond).error.isSome = true := by
  cases hass : assembleSections skel results with
  | error e =>
    rw [mainRun_assembly_error serialize decode prompts skel respond order imgRespond
      results e hok hass]
    exact ⟨rfl, rfl⟩
  | ok t =>
    have hh2 : findHeadChildren t = none :=
      assembleSections_headless results skel t hnohead hass
    have hihn : insertHeadBlocks (aggregate (results.map fun r => r.css_code))
        (aggregate (results.map fun r => r.js_code)) t = none := by
      unfold insertHeadBlocks
      exact (mapHead_none_iff _ t).mpr hh2
    rw [mainRun_nohead serialize decode prompts skel respond order imgRespond
      results t hok hass hihn]
    exact ⟨rfl, rfl⟩

theorem claim_C10_witness :
    (mainRun (fun _ => "") (fun s => s) [{ section_name := "hero", prompt := "p" }]
        [Node.elem "body" none [Node.elem "div" (some "hero") []]]
        (fun _ => Except.ok { image_prompts := [], html_code := "H",
                              css_code := none, js_code := none })
        [0] (fun _ => ImageApiResponse.failure)).writes = [] ∧
    (mainRun (fun _ => "") (fun s => s) [{ section_name := "hero", prompt := "p" }]
        [Node.elem "body" none [Node.elem "div" (some "hero") []]]
        (fun _ => Except.ok { image_prompts := [], html_code := "H",
                              css_code := none, js_code := none })
        [0] (fun _ => ImageApiResponse.failure)).error.isSome = true :=
  claim_C10_missing_head_aborts (fun _ => "") (fun s => s)
    [{ section_name := "hero", prompt := "p" }]
    [Node.elem "body" none [Node.elem "div" (some "hero") []]]
    (fun _ => Except.ok { image_prompts := [], html_code := "H",
                          css_code := none, js_code := none })
    [0] (fun _ => ImageApiResponse.failure)
    [{ section_name := "hero", html_code := "H", css_code := none, js_code := none,
       image_prompts := [] }]
    rfl
    (by simp [findHeadChildren])

-- ------------------------------------------------------------------
-- Claim C3: aggregated style and script blocks
-- ------------------------------------------------------------------

/-- C3: after assembly, the run builds exactly one aggregated style block —
the `"\n"`-join of all non-null `css_code` in plan (dispatch) order — and
one aggregated script block (same for `js_code`), and inserts both into
the head's children (lines 149-152): style at index 1, then script at
index 1, so the head's children become `first-child :: script :: style ::
rest`, a fixed order that is deterministic run-to-run; when every css and
js is null the aggregated contents are both empty. Plan order is witnessed
by the positional correlation of gathered results with plan outcomes. -/
theorem claim_C3_aggregated_blocks
    (prompts : List PromptSchema) (respond : Nat → Except String WorkerResponse)
    (order : List Nat) (results : List SectionResult) (skel t : List Node)
    (h0 : Node) (hs : List Node)
    (horder : ∀ j, j < prompts.length → j ∈ order)
    (hok : gatherSections prompts respond order = Except.ok results)
    (hass : assembleSections skel results = Except.ok t)
    (hhead : findHeadChildren t = some (h0 :: hs)) :
    planOutcomes prompts respond = results.map Except.ok ∧
    ∃ t2,
      insertHeadBlocks (aggregate (results.map fun r => r.css_code))
        (aggregate (results.map fun r => r.js_code)) t = some t2 ∧
      findHeadChildren t2 =
        some (h0 :: scriptBlock (aggregate (results.map fun r => r.js_code)) ::
          styleBlock (aggregate (results.map fun r => r.css_code)) :: hs) ∧
      ((∀ r ∈ results, r.css_code = none) →
        aggregate (results.map fun r => r.css_code) = "") ∧
      ((∀ r ∈ results, r.js_code = none) →
        aggregate (results.map fun r => r.js_code) = "") := by
  constructor
  · have hgr : gatherResults (planOutcomes prompts respond) order =
        planOutcomes prompts respond := by
      apply gatherResults_complete
      intro j hj
      exact horder j (by rwa [planOutcomes_length] at hj)
    rw [gatherSections_eq, hgr] at hok
    exact gatherExcept_ok_elim _ _ hok
  · obtain ⟨t2, hm, hf⟩ := mapHead_some
      (fun cs => insertAt 1 (scriptBlock (aggregate (results.map fun r => r.js_code)))
        (insertAt 1 (styleBlock (aggregate (results.map fun r => r.css_code))) cs))
      t (h0 :: hs) hhead
    refine ⟨t2, hm, ?_, ?_, ?_⟩
    · rw [hf]
      rfl
    · intro hnone
      apply aggregate_all_none
      intro x hx
      rcases List.mem_map.mp hx with ⟨r, hr, hxr⟩
      rw [← hxr]
      exact hnone r hr
    · intro hnone
      apply aggregate_all_none
      intro x hx
      rcases List.mem_map.mp hx with ⟨r, hr, hxr⟩
      rw [← hxr]
      exact hnone r hr

theorem claim_C3_witness :
    planOutcomes ([] : List PromptSchema) (fun _ => Except.error "unused") =
      ([] : List SectionResult).map Except.ok ∧
    ∃ t2,
      insertHeadBlocks (aggregate (([] : List SectionResult).map fun r => r.css_code))
        (aggregate (([] : List SectionResult).map fun r => r.js_code))
        [Node.elem "head" none [Node.text "T"]] = some t2 ∧
      findHeadChildren t2 =
        some (Node.text "T" ::
          scriptBlock (aggregate (([] : List SectionResult).map fun r => r.js_code)) ::
          styleBlock (aggregate (([] : List SectionResult).map fun r => r.css_code)) ::
          []) ∧
      ((∀ r ∈ ([] : List SectionResult), r.css_code = none) →
        aggregate (([] : List SectionResult).map fun r => r.css_code) = "") ∧
      ((∀ r ∈ ([] : List SectionResult), r.js_code = none) →
        aggregate (([] : List SectionResult).map fun r => r.js_code) = "") :=
  claim_C3_aggregated_blocks [] (fun _ => Except.error "unused") [] []
    [Node.elem "head" none [Node.text "T"]] [Node.elem "head" none [Node.text "T"]]
    (Node.text "T") []
    (by intro j hj; simp at hj)
    rfl
    rfl
    (by simp [findHeadChildren])

theorem claim_C1_witness :
    (sectionTasks scenarioPrompts).length = scenarioPrompts.length ∧
    (∀ i : Nat, ∀ p : PromptSchema, scenarioPrompts[i]? = some p →
      (sectionTasks scenarioPrompts)[i]? =
        some { workerIndex := i, section_name := p.section_name, prompt := p.prompt }) ∧
    planOutcomes scenarioPrompts scenarioRespond = scenarioResults.map Except.ok ∧
    ∃ t2, assembleSections scenarioSkeleton scenarioResults = Except.ok t2 ∧
      (∀ r ∈ scenarioResults, countIdF r.section_name t2 = 0) ∧
      (∀ r ∈ scenarioResults,
        textOutside (scenarioResults.map fun r => r.section_name) r.html_code t2 = true) :=
  claim_C1_fanout_and_assembly scenarioPrompts scenarioSkeleton scenarioRespond
    [1, 0] scenarioResults
    (by intro j hj
        simp only [scenarioPrompts, List.length_cons, List.length_nil] at hj
        have : j = 0 ∨ j = 1 := by omega
        rcases this with h | h <;> simp [h])
    rfl
    (by simp [scenarioResults])
    (by simp [scenarioResults, scenarioSkeleton, countIdF])
    (by simp [scenarioResults, scenarioSkeleton, sectionsFlat, hasIdIn, idMem])

end MultiLLM
